import Mathlib

/-!
Verification of the Studio non-linear video editor core: the timeline data
model and edit operations (src/App.tsx), the frame compositor
(src/components/VideoCanvas.tsx) and the export graph builder
(src/supabase/functions/export-video/index.ts), embedded shallowly over ℚ.
-/

namespace Studio

/-- Media kind of an `Asset` (types.ts `MediaType`). -/
inductive MediaType
  | video
  | image
  | audio
  | text
deriving DecidableEq, Repr

/-- Track kind (types.ts `TimelineTrack.type`). -/
inductive TrackType
  | video
  | audio
  | text
deriving DecidableEq, Repr

/-- Transition kind (types.ts `TransitionType`). -/
inductive TransitionType
  | none
  | fade
  | dissolve
  | wipe
  | slide
deriving DecidableEq, Repr

/-- Per-item filter parameters (types.ts `TimelineItem.filters`). -/
structure Filters where
  brightness : Option ℚ := Option.none
  contrast : Option ℚ := Option.none
  saturation : Option ℚ := Option.none
  blur : Option ℚ := Option.none
deriving DecidableEq, Repr

/-- A media asset (types.ts `Asset`). -/
structure Asset where
  id : String
  type : MediaType
  url : String
  name : String
  duration : Option ℚ := Option.none
  textContent : Option String := Option.none
deriving DecidableEq, Repr

/-- A placement of one asset on one track (types.ts `TimelineItem`). -/
structure TimelineItem where
  id : String
  assetId : String
  startTime : ℚ
  duration : ℚ
  layer : Int
  transitionIn : Option TransitionType := Option.none
  transitionOut : Option TransitionType := Option.none
  transitionDuration : Option ℚ := Option.none
  opacity : Option ℚ := Option.none
  volume : Option ℚ := Option.none
  filters : Option Filters := Option.none
deriving DecidableEq, Repr

/-- A timeline lane (types.ts `TimelineTrack`). -/
structure TimelineTrack where
  id : String
  name : String
  type : TrackType
  volume : ℚ
  items : List TimelineItem
deriving DecidableEq, Repr

/-- The aggregate project model (types.ts `ProjectState`). -/
structure ProjectState where
  id : String
  title : String
  assets : List Asset
  timeline : List TimelineTrack
deriving DecidableEq, Repr

/-- `project.assets.find(a => a.id === assetId)`. -/
def lookupAsset (p : ProjectState) (assetId : String) : Option Asset :=
  p.assets.find? (fun a => a.id = assetId)

/-- All items of the whole timeline (`project.timeline.flatMap(t => t.items)`). -/
def allItems (p : ProjectState) : List TimelineItem :=
  p.timeline.flatMap (fun t => t.items)

/-! ### Edit operations (src/App.tsx) -/

/-- Fallback duration in `addToTimeline`:
`(asset.type === 'image' ? 5 : 10)`. -/
def assetFallbackDuration (a : Asset) : ℚ :=
  if a.type = MediaType.image then 5 else 10

/-- `asset.duration || (asset.type === 'image' ? 5 : 10)` — a stored duration
of `0` is falsy in JS and falls back. -/
def assetItemDuration (a : Asset) : ℚ :=
  match a.duration with
  | Option.some d => if d = 0 then assetFallbackDuration a else d
  | Option.none => assetFallbackDuration a

/-- Track-resolution predicate of `addToTimeline` (App.tsx:365-368):
`(asset.type === 'audio' && t.type === 'audio') ||
 (asset.type !== 'audio' && t.type === 'video')`. -/
def addTrackPred (a : Asset) (t : TimelineTrack) : Bool :=
  (a.type = MediaType.audio ∧ t.type = TrackType.audio) ∨
  (a.type ≠ MediaType.audio ∧ t.type = TrackType.video)

/-- `addToTimeline` (App.tsx:364-386). The fresh random item id is passed
explicitly as `newItemId`. -/
def addToTimeline (p : ProjectState) (asset : Asset) (targetTrackId : Option String)
    (startTime : ℚ) (newItemId : String) : ProjectState :=
  let resolvedTrackId :=
    targetTrackId.getD ((((p.timeline.find? (addTrackPred asset)).map (fun t => t.id))).getD "v1")
  let newTimelineItem : TimelineItem :=
    { id := newItemId
      assetId := asset.id
      startTime := startTime
      duration := assetItemDuration asset
      layer := 0 }
  { p with
    timeline := p.timeline.map (fun track =>
      if track.id = resolvedTrackId then
        { track with items := track.items ++ [newTimelineItem] }
      else track) }

/-- Side of a resize drag. -/
inductive ResizeSide
  | start
  | «end»
deriving DecidableEq, Repr

/-- Minimum duration enforced by resizing (`Math.max(0.1, …)`). -/
def minResizeDuration : ℚ := 1 / 10

/-- One `mousemove` step of the resize branch of `handleMouseMove`
(App.tsx:270-289). `initialStart`/`initialDuration` are the values captured
at `handleResizeStart`; `deltaX` is the mouse delta in seconds. -/
def resizeItems (itemId : String) (side : ResizeSide)
    (initialStart initialDuration deltaX : ℚ)
    (items : List TimelineItem) : List TimelineItem :=
  items.map (fun i =>
    if i.id = itemId then
      match side with
      | ResizeSide.start =>
        let newStart := max 0 (initialStart + deltaX)
        let newDur := max minResizeDuration (initialDuration - (newStart - initialStart))
        { i with startTime := newStart, duration := newDur }
      | ResizeSide.end =>
        let newDur := max minResizeDuration (initialDuration + deltaX)
        { i with duration := newDur }
    else i)

/-- `handleMouseMove` resize branch applied to the whole project. -/
def handleResize (p : ProjectState) (itemId : String) (side : ResizeSide)
    (initialStart initialDuration deltaX : ℚ) : ProjectState :=
  { p with
    timeline := p.timeline.map (fun track =>
      { track with items := resizeItems itemId side initialStart initialDuration deltaX track.items }) }

/-- First part of a split (`{ ...item, duration: firstPartDuration }`). -/
def splitFirstPart (item : TimelineItem) (t : ℚ) : TimelineItem :=
  { item with duration := t - item.startTime }

/-- Second part of a split
(`{ ...item, id: <random>, startTime: currentTime, duration: secondPartDuration }`). -/
def splitSecondPart (item : TimelineItem) (t : ℚ) (newId : String) : TimelineItem :=
  { item with
    id := newId
    startTime := t
    duration := item.duration - (t - item.startTime) }

/-- Split guard (App.tsx:396):
`currentTime > item.startTime && currentTime < item.startTime + item.duration`. -/
def splitGuard (item : TimelineItem) (t : ℚ) : Bool :=
  item.startTime < t ∧ t < item.startTime + item.duration

/-- The per-track body of `handleSplit`: `findIndex` locates the first item
with the selected id; if the guard holds it is spliced into two parts and
the loop breaks, otherwise the loop continues with the next track
(`none` here). -/
def trySplitItems (itemId : String) (t : ℚ) (newId : String) :
    List TimelineItem → Option (List TimelineItem)
  | [] => Option.none
  | i :: rest =>
    if i.id = itemId then
      if splitGuard i t then
        Option.some (splitFirstPart i t :: splitSecondPart i t newId :: rest)
      else Option.none
    else (trySplitItems itemId t newId rest).map (fun l => i :: l)

/-- The track loop of `handleSplit` (App.tsx:392-408). -/
def splitTracks (itemId : String) (t : ℚ) (newId : String) :
    List TimelineTrack → List TimelineTrack
  | [] => []
  | tr :: rest =>
    match trySplitItems itemId t newId tr.items with
    | Option.some newItems => { tr with items := newItems } :: rest
    | Option.none => tr :: splitTracks itemId t newId rest

/-- `handleSplit` (App.tsx:388-411), with the playhead `t` and the random
fresh id passed explicitly. -/
def handleSplit (p : ProjectState) (itemId : String) (t : ℚ) (newId : String) :
    ProjectState :=
  { p with timeline := splitTracks itemId t newId p.timeline }

/-- `handleDelete` (App.tsx:413-423). -/
def handleDelete (p : ProjectState) (itemId : String) : ProjectState :=
  { p with
    timeline := p.timeline.map (fun t =>
      { t with items := t.items.filter (fun i => i.id ≠ itemId) }) }

/-- Moving a timeline item by drag-and-drop: the `timeline-item` branch of
`handleTrackDrop` (App.tsx:432-448). `rawStart` is the drop x position in
seconds before the `Math.max(0, …)` clamp. -/
def handleTrackDropMove (p : ProjectState) (itemId sourceTrackId targetTrackId : String)
    (rawStart : ℚ) : ProjectState :=
  let dropStartTime := max 0 rawStart
  match p.timeline.find? (fun t => t.id = sourceTrackId) with
  | Option.none => p
  | Option.some sourceTrack =>
    match sourceTrack.items.find? (fun i => i.id = itemId) with
    | Option.none => p
    | Option.some item =>
      match p.timeline.find? (fun t => t.id = targetTrackId) with
      | Option.none => p
      | Option.some targetTrack =>
        if sourceTrack.type ≠ targetTrack.type then p
        else
          { p with
            timeline := p.timeline.map (fun t =>
              if t.id = sourceTrackId ∧ t.id = targetTrackId then
                { t with items := t.items.map (fun i =>
                    if i.id = item.id then { i with startTime := dropStartTime } else i) }
              else if t.id = sourceTrackId then
                { t with items := t.items.filter (fun i => i.id ≠ item.id) }
              else if t.id = targetTrackId then
                { t with items := t.items ++ [{ item with startTime := dropStartTime }] }
              else t) }

/-- Dropping a library asset onto a track: the `library-asset` branch of
`handleTrackDrop` (App.tsx:449-452). No kind check is performed. -/
def handleTrackDropLibrary (p : ProjectState) (assetId targetTrackId : String)
    (rawStart : ℚ) (newItemId : String) : ProjectState :=
  let dropStartTime := max 0 rawStart
  match p.assets.find? (fun a => a.id = assetId) with
  | Option.none => p
  | Option.some asset => addToTimeline p asset (Option.some targetTrackId) dropStartTime newItemId

/-! ### Frame Compositor (src/components/VideoCanvas.tsx) -/

/-- Insert into a layer-sorted list, keeping earlier elements first among
equal layers — the stable ascending order produced by
`Array.prototype.sort` with comparator `a.layer - b.layer`. -/
def insertByLayer {α : Type} (key : α → Int) (x : α) : List α → List α
  | [] => [x]
  | y :: ys => if key y < key x then y :: insertByLayer key x ys else x :: y :: ys

/-- Stable sort by an integer key, matching the JS stable `sort`. -/
def sortByLayer {α : Type} (key : α → Int) : List α → List α
  | [] => []
  | x :: xs => insertByLayer key x (sortByLayer key xs)

/-- `currentTime >= item.startTime && currentTime < item.startTime + item.duration`
(VideoCanvas.tsx:21). -/
def itemActiveAt (i : TimelineItem) (t : ℚ) : Bool :=
  i.startTime ≤ t ∧ t < i.startTime + i.duration

/-- Whether a track feeds the compositor (VideoCanvas.tsx:18):
`t.type === 'video' || t.type === 'text'`. -/
def isVisualTrack (tr : TimelineTrack) : Bool :=
  tr.type = TrackType.video ∨ tr.type = TrackType.text

/-- `activeItems` of the Frame Compositor (VideoCanvas.tsx:17-22): items of
visual tracks whose time range contains the playhead, stably sorted by
ascending layer. -/
def activeItems (timeline : List TimelineTrack) (currentTime : ℚ) :
    List (TimelineItem × TimelineTrack) :=
  sortByLayer (fun pr => pr.1.layer)
    (((timeline.filter isVisualTrack).flatMap
        (fun track => track.items.map (fun item => (item, track)))).filter
      (fun pr => itemActiveAt pr.1 currentTime))

/-- The item/parent-track lookup loop of `syncAudio` (App.tsx:188-196):
the audio element map is keyed over all timeline items whose asset is an
audio asset, on whatever track they sit. -/
def audioItemsOf (p : ProjectState) : List (TimelineItem × TimelineTrack) :=
  (p.timeline.flatMap (fun track => track.items.map (fun item => (item, track)))).filter
    (fun pr => match lookupAsset p pr.1.assetId with
      | Option.some a => a.type = MediaType.audio
      | Option.none => false)

/-- The gain `syncAudio` applies to an item's audio element
(App.tsx:201 `audio.volume = parentTrack.volume`): the parent track's
volume, independent of the item's local time and of `item.volume`. -/
def syncAudioGain (track : TimelineTrack) (_i : TimelineItem) (_itemLocalTime : ℚ) : ℚ :=
  track.volume

/-- The audible items and their applied gains at playhead `t` during live
playback: items whose asset is audio and whose range contains `t`
(`isInside`, App.tsx:200), each at its `syncAudio` gain. -/
def liveAudioGains (p : ProjectState) (t : ℚ) : List (String × ℚ) :=
  ((audioItemsOf p).filter (fun pr => itemActiveAt pr.1 t)).map
    (fun pr => (pr.1.id, syncAudioGain pr.2 pr.1 (t - pr.1.startTime)))

/-! ### Export Graph Builder (src/supabase/functions/export-video/index.ts) -/

/-- `maxDuration` (index.ts:94-99):
`Math.max(...timeline.flatMap(track => track.items.map(i => i.startTime + i.duration)), 10)`,
also passed to the encoder as `-t maxDuration` (index.ts:332). -/
def maxDuration (p : ProjectState) : ℚ :=
  (allItems p).foldr (fun i acc => max (i.startTime + i.duration) acc) 10

/-- Gain of one audio-track export node (index.ts:223):
`item.volume !== undefined ? item.volume : (track.volume || 1)`. -/
def exportAudioVolume (track : TimelineTrack) (i : TimelineItem) : ℚ :=
  i.volume.getD (if track.volume = 0 then 1 else track.volume)

/-- One user-level edit operation of the Edit Operations Engine. -/
inductive EditOp
  | add (asset : Asset) (targetTrackId : Option String) (startTime : ℚ) (newItemId : String)
  | resize (itemId : String) (side : ResizeSide) (initialStart initialDuration deltaX : ℚ)
  | split (itemId : String) (atTime : ℚ) (newId : String)
  | dropMove (itemId sourceTrackId targetTrackId : String) (rawStart : ℚ)
  | dropLibrary (assetId targetTrackId : String) (rawStart : ℚ) (newItemId : String)
  | deleteItem (itemId : String)

/-- Interpret one edit operation on the project model. -/
def applyOp (p : ProjectState) : EditOp → ProjectState
  | EditOp.add asset targetTrackId startTime newItemId =>
    addToTimeline p asset targetTrackId startTime newItemId
  | EditOp.resize itemId side initialStart initialDuration deltaX =>
    handleResize p itemId side initialStart initialDuration deltaX
  | EditOp.split itemId atTime newId => handleSplit p itemId atTime newId
  | EditOp.dropMove itemId sourceTrackId targetTrackId rawStart =>
    handleTrackDropMove p itemId sourceTrackId targetTrackId rawStart
  | EditOp.dropLibrary assetId targetTrackId rawStart newItemId =>
    handleTrackDropLibrary p assetId targetTrackId rawStart newItemId
  | EditOp.deleteItem itemId => handleDelete p itemId

/-- Interpret a sequence of edit operations, left to right. -/
def applyOps (p : ProjectState) (ops : List EditOp) : ProjectState :=
  ops.foldl applyOp p

/-! ### Undo/redo history -/

/-- Modelled from the spec: the repository has no undo/redo implementation
(no history, snapshot, undo or redo code exists in the sources); §4.4
describes it as a bounded, linear, non-branching stack of full-model
snapshots with a cursor, represented here as the snapshots strictly before
the cursor (`past`, most recent first), the snapshot at the cursor
(`live`), and the snapshots after the cursor (`future`). -/
structure History where
  past : List ProjectState
  live : ProjectState
  future : List ProjectState
deriving DecidableEq

/-- Modelled from the spec: a mutating operation snapshots the current
model, applies the edit to produce the new live model, discards all redo
entries beyond the cursor, and bounds the history at `bound` snapshots by
dropping the oldest. -/
def History.doEdit (bound : Nat) (h : History) (op : EditOp) : History :=
  { past := (h.live :: h.past).take (bound - 1)
    live := applyOp h.live op
    future := [] }

/-- Modelled from the spec: Undo moves the cursor one snapshot back and
replaces the live model with the snapshot there; Undo at the oldest
snapshot is a no-op. -/
def History.undo (h : History) : History :=
  match h.past with
  | [] => h
  | prev :: rest => { past := rest, live := prev, future := h.live :: h.future }

/-- Modelled from the spec: Redo moves the cursor one snapshot forward;
Redo at the newest snapshot is a no-op. -/
def History.redo (h : History) : History :=
  match h.future with
  | [] => h
  | next :: rest => { past := h.live :: h.past, live := next, future := rest }

/-! ### Model invariants -/

/-- The per-item model invariant: `duration > 0` and `startTime ≥ 0` (§3). -/
def ItemOk (i : TimelineItem) : Prop :=
  0 < i.duration ∧ 0 ≤ i.startTime

/-- The timeline-wide item invariant. -/
def Inv (p : ProjectState) : Prop :=
  ∀ tr ∈ p.timeline, ∀ i ∈ tr.items, ItemOk i

/-- An asset's stored natural duration, when present, is nonnegative (a
media element duration is never negative). -/
def AssetDurOk (a : Asset) : Prop :=
  ∀ d, a.duration = Option.some d → 0 ≤ d

/-- All assets of the project have nonnegative stored durations. -/
def AssetsOk (p : ProjectState) : Prop :=
  ∀ a ∈ p.assets, AssetDurOk a

/-- Caller-side range facts about one operation's arguments: `addToTimeline`
is invoked with `startTime = currentTime` or `dropStartTime`, both
nonnegative, and with an asset with a nonnegative stored duration. -/
def OpArgsOk : EditOp → Prop
  | EditOp.add asset _ startTime _ => 0 ≤ startTime ∧ AssetDurOk asset
  | _ => True

/-- Compatibility of an asset kind with a track kind (§3): video tracks
hold video/image, audio tracks hold audio, text tracks hold text. -/
def kindCompatible (m : MediaType) (tt : TrackType) : Bool :=
  match tt, m with
  | TrackType.video, MediaType.video => true
  | TrackType.video, MediaType.image => true
  | TrackType.audio, MediaType.audio => true
  | TrackType.text, MediaType.text => true
  | _, _ => false

/-- One item's compatibility with a track kind: vacuous when its asset
does not resolve. -/
def itemCompat (p : ProjectState) (ty : TrackType) (i : TimelineItem) : Bool :=
  match lookupAsset p i.assetId with
  | Option.some a => kindCompatible a.type ty
  | Option.none => true

/-- Track/asset kind compatibility invariant: every item whose asset
resolves references an asset compatible with its track's kind. -/
def trackCompat (p : ProjectState) : Bool :=
  p.timeline.all (fun tr => tr.items.all (itemCompat p tr.type))

/-- The maximum of `startTime + duration` over all items (0 for an empty
timeline) — the spec-side quantity C3 compares the builder's output
duration against. -/
def maxEndTime (p : ProjectState) : ℚ :=
  (allItems p).foldr (fun i acc => max (i.startTime + i.duration) acc) 0

/-- The initial project model of the editor (App.tsx:97-107). -/
def initialProject : ProjectState :=
  { id := "1"
    title := "Lumina Masterpiece"
    assets := []
    timeline :=
      [{ id := "v1", name := "Video 1", type := TrackType.video, volume := 1, items := [] },
       { id := "v2", name := "Video 2", type := TrackType.video, volume := 1, items := [] },
       { id := "a1", name := "Background", type := TrackType.audio, volume := 1 / 2, items := [] },
       { id := "a2", name := "Voiceover", type := TrackType.audio, volume := 1, items := [] }] }

/-! ### List helper lemmas -/

lemma mem_insertByLayer {α : Type} (key : α → Int) (a x : α) (l : List α) :
    x ∈ insertByLayer key a l ↔ x = a ∨ x ∈ l := by
  induction l with
  | nil => simp [insertByLayer]
  | cons y ys ih =>
    by_cases h : key y < key a
    · simp only [insertByLayer, if_pos h, List.mem_cons, ih]
      tauto
    · simp only [insertByLayer, if_neg h, List.mem_cons]

lemma mem_sortByLayer {α : Type} (key : α → Int) (x : α) (l : List α) :
    x ∈ sortByLayer key l ↔ x ∈ l := by
  induction l with
  | nil => simp [sortByLayer]
  | cons y ys ih => simp [sortByLayer, mem_insertByLayer, ih]

lemma pairwise_insertByLayer {α : Type} (key : α → Int) (a : α) (l : List α)
    (h : l.Pairwise (fun x y => key x ≤ key y)) :
    (insertByLayer key a l).Pairwise (fun x y => key x ≤ key y) := by
  induction l with
  | nil => simp [insertByLayer]
  | cons y ys ih =>
    rw [List.pairwise_cons] at h
    by_cases hy : key y < key a
    · rw [insertByLayer, if_pos hy, List.pairwise_cons]
      refine ⟨fun z hz => ?_, ih h.2⟩
      rcases (mem_insertByLayer key a z ys).mp hz with rfl | hz2
      · exact le_of_lt hy
      · exact h.1 z hz2
    · rw [insertByLayer, if_neg hy, List.pairwise_cons]
      refine ⟨fun z hz => ?_, List.pairwise_cons.mpr h⟩
      rcases List.mem_cons.mp hz with rfl | hz2
      · exact le_of_not_lt hy
      · exact le_trans (le_of_not_lt hy) (h.1 z hz2)

lemma pairwise_sortByLayer {α : Type} (key : α → Int) (l : List α) :
    (sortByLayer key l).Pairwise (fun x y => key x ≤ key y) := by
  induction l with
  | nil => simp [sortByLayer]
  | cons y ys ih => exact pairwise_insertByLayer key y (sortByLayer key ys) ih

lemma insertByLayer_eq_cons {α : Type} (key : α → Int) (a : α) (l : List α)
    (h : ∀ z ∈ l, ¬ key z < key a) : insertByLayer key a l = a :: l := by
  cases l with
  | nil => rfl
  | cons y ys => rw [insertByLayer, if_neg (h y (List.mem_cons_self y ys))]

lemma filter_insertByLayer {α : Type} (key : α → Int) (p : α → Bool) (a : α) (l : List α)
    (h : l.Pairwise (fun x y => key x ≤ key y)) :
    (insertByLayer key a l).filter p =
      if p a then insertByLayer key a (l.filter p) else l.filter p := by
  induction l with
  | nil => cases hpa : p a <;> simp [insertByLayer, List.filter, hpa]
  | cons y ys ih =>
    rw [List.pairwise_cons] at h
    by_cases hy : key y < key a
    · rw [insertByLayer, if_pos hy]
      cases hpy : p y with
      | true =>
        rw [List.filter_cons_of_pos hpy, ih h.2, List.filter_cons_of_pos hpy]
        cases hpa : p a with
        | true =>
          rw [if_pos rfl, if_pos rfl, insertByLayer, if_pos hy]
        | false => rw [if_neg (by simp), if_neg (by simp)]
      | false =>
        rw [List.filter_cons_of_neg (by simp [hpy]), ih h.2,
          List.filter_cons_of_neg (by simp [hpy])]
    · rw [insertByLayer, if_neg hy]
      cases hpa : p a with
      | true =>
        rw [List.filter_cons_of_pos hpa, if_pos rfl]
        rw [insertByLayer_eq_cons key a ((y :: ys).filter p)]
        intro z hz
        rcases List.mem_filter.mp hz with ⟨hz2, _⟩
        rcases List.mem_cons.mp hz2 with rfl | hz3
        · exact hy
        · exact fun hlt => hy (lt_of_le_of_lt (h.1 z hz3) hlt)
      | false => rw [List.filter_cons_of_neg (by simp [hpa]), if_neg (by simp)]

lemma filter_sortByLayer {α : Type} (key : α → Int) (p : α → Bool) (l : List α) :
    (sortByLayer key l).filter p = sortByLayer key (l.filter p) := by
  induction l with
  | nil => simp [sortByLayer]
  | cons y ys ih =>
    rw [sortByLayer, filter_insertByLayer key p y (sortByLayer key ys) (pairwise_sortByLayer key ys), ih]
    cases hpy : p y with
    | true => rw [if_pos rfl, List.filter_cons_of_pos hpy, sortByLayer]
    | false => rw [if_neg (by simp), List.filter_cons_of_neg (by simp [hpy])]

lemma filter_flatMap {α β : Type} (l : List α) (f : α → List β) (p : β → Bool) :
    (l.flatMap f).filter p = l.flatMap (fun x => (f x).filter p) := by
  induction l with
  | nil => rfl
  | cons a as ih => simp only [List.flatMap_cons, List.filter_append, ih]

lemma foldr_maxEnd_base (l : List TimelineItem) (b : ℚ) (hb : 0 ≤ b) :
    l.foldr (fun i acc => max (i.startTime + i.duration) acc) b =
      max b (l.foldr (fun i acc => max (i.startTime + i.duration) acc) 0) := by
  induction l with
  | nil => simp [max_eq_left hb]
  | cons i is ih => rw [List.foldr_cons, List.foldr_cons, ih, max_left_comm]

lemma le_foldr_maxEnd (l : List TimelineItem) (b : ℚ) (i : TimelineItem) (h : i ∈ l) :
    i.startTime + i.duration ≤ l.foldr (fun j acc => max (j.startTime + j.duration) acc) b := by
  induction l with
  | nil => cases h
  | cons j js ih =>
    rcases List.mem_cons.mp h with rfl | h2
    · exact le_max_left _ _
    · exact le_trans (ih h2) (le_max_right _ _)

/-- A project with a single 4-second video item starting at 0: its maximum
item end is 4 < 10. -/
def shortProject : ProjectState :=
  { id := "p", title := "short", assets := []
    timeline :=
      [{ id := "v1", name := "Video 1", type := TrackType.video, volume := 1,
         items := [{ id := "i1", assetId := "a1", startTime := 0, duration := 4, layer := 0 }] }] }

/-- C3 counterexample: a non-empty timeline whose maximum end (4 s) is
below the floor does NOT export at its own maximum end — the builder's
duration is 10, not 4, so the floor is not used only for empty timelines. -/
theorem c3_counterexample :
    allItems shortProject ≠ [] ∧ maxEndTime shortProject = 4 ∧
      maxDuration shortProject = 10 ∧ maxDuration shortProject ≠ maxEndTime shortProject := by
  have h1 : maxEndTime shortProject = 4 := by
    rw [maxEndTime, allItems]
    show max ((0 : ℚ) + 4) 0 = 4
    rw [max_eq_left]
    all_goals norm_num
  have h2 : maxDuration shortProject = 10 := by
    rw [maxDuration, allItems]
    show max ((0 : ℚ) + 4) 10 = 10
    rw [max_eq_right]
    all_goals norm_num
  refine ⟨by simp [allItems, shortProject], h1, h2, ?_⟩
  rw [h1, h2]
  norm_num

/-- C3 amended: the Export Graph Builder's total output duration is the
maximum of `startTime + duration` over all items, floored at 10 seconds —
and the floor applies to every timeline, not only empty ones: an empty
timeline yields 10, and every item end is bounded by the output duration. -/
theorem c3_amended_duration (p : ProjectState) :
    maxDuration p = max 10 (maxEndTime p) ∧
      (allItems p = [] → maxDuration p = 10) ∧
      (∀ i ∈ allItems p, i.startTime + i.duration ≤ maxDuration p) := by
  refine ⟨foldr_maxEnd_base (allItems p) 10 (by norm_num), ?_, ?_⟩
  · intro h
    rw [maxDuration, h]
    rfl
  · intro i hi
    exact le_foldr_maxEnd (allItems p) 10 i hi

/-- Witness for C3 amended at the empty initial project. -/
theorem c3_amended_duration_witness : maxDuration initialProject = 10 :=
  (c3_amended_duration initialProject).2.1 (by simp [allItems, initialProject])

/-! ### C4: audio gain -/

/-- An audio item with a per-item gain of 1/2. -/
def gainItem : TimelineItem :=
  { id := "gi", assetId := "ga", startTime := 0, duration := 2, layer := 0,
    volume := Option.some (1 / 2) }

/-- An audio track with gain 3/4 holding `gainItem`. -/
def gainTrack : TimelineTrack :=
  { id := "a1", name := "Background", type := TrackType.audio, volume := 3 / 4,
    items := [gainItem] }

/-- C4 counterexample: for item gain g = 1/2 on a track with gain
tg = 3/4, the gain `syncAudio` applies at `itemLocalTime = 0` is 3/4, not
the claimed 0 (there is no fade envelope), and at the midpoint it is 3/4,
not the claimed g × tg = 3/8 (the per-item gain is ignored). -/
theorem c4_counterexample :
    syncAudioGain gainTrack gainItem 0 ≠ 0 ∧
      syncAudioGain gainTrack gainItem 1 ≠ gainTrack.volume * gainItem.volume.getD 1 := by
  constructor
  · norm_num [syncAudioGain, gainTrack]
  · norm_num [syncAudioGain, gainTrack, gainItem]

/-- C4 amended: live playback applies exactly the parent track's gain to
every audible audio item, at every item-local time — there is no fade
envelope and the per-item gain is ignored; on the export path the per-item
gain, when set, replaces (does not multiply) the track gain, and otherwise
the track gain is used unless it is 0, in which case gain 1 is used. -/
theorem c4_amended_gain :
    (∀ p t id g, (id, g) ∈ liveAudioGains p t →
      ∃ pr ∈ audioItemsOf p, pr.1.id = id ∧ itemActiveAt pr.1 t = true ∧ g = pr.2.volume) ∧
    (∀ tr (i : TimelineItem), i.volume = Option.none → tr.volume ≠ 0 →
      exportAudioVolume tr i = tr.volume) ∧
    (∀ tr (i : TimelineItem) g, i.volume = Option.some g → exportAudioVolume tr i = g) := by
  refine ⟨?_, ?_, ?_⟩
  · intro p t id g hmem
    rw [liveAudioGains, List.mem_map] at hmem
    obtain ⟨pr, hpr, heq⟩ := hmem
    rw [List.mem_filter] at hpr
    exact ⟨pr, hpr.1, congrArg Prod.fst heq, hpr.2,
      (congrArg Prod.snd heq).symm⟩
  · intro tr i hvol htv
    rw [exportAudioVolume, hvol, Option.getD_none, if_neg htv]
  · intro tr i g hvol
    rw [exportAudioVolume, hvol, Option.getD_some]

/-- An audio item with no per-item gain, used as the C4 witness input. -/
def plainAudioItem : TimelineItem :=
  { id := "pa", assetId := "ga", startTime := 0, duration := 2, layer := 0 }

/-- Witness for C4 amended: on a track with gain 3/4, an item with no
per-item gain exports at the track gain. -/
theorem c4_amended_gain_witness : exportAudioVolume gainTrack plainAudioItem = gainTrack.volume :=
  c4_amended_gain.2.1 gainTrack plainAudioItem rfl (by norm_num [gainTrack])

/-! ### C8: resize semantics -/

/-- The item of the spec's concrete resize scenario: start 2, duration 3. -/
def resizeDemoItem : TimelineItem :=
  { id := "r1", assetId := "a1", startTime := 2, duration := 3, layer := 0 }

/-- C8: resizing clamps to `duration ≥ 0.1` and `startTime ≥ 0`; a start-edge
resize that stays inside the clamps moves the start by the drag delta and
shortens the duration by the same amount, preserving the end boundary; an
end-edge resize keeps the start; and the concrete scenario (start=2,
duration=3) resized to start=3 yields duration=2, end=5. -/
theorem c8_resize_contract (itemId : String) (iS iD dX : ℚ) (items : List TimelineItem)
    (n : ℕ) (i : TimelineItem) (hn : items[n]? = Option.some i) (hid : i.id = itemId) :
    (∃ j, (resizeItems itemId ResizeSide.start iS iD dX items)[n]? = Option.some j ∧
      0 ≤ j.startTime ∧ minResizeDuration ≤ j.duration ∧
      (0 ≤ iS + dX → dX ≤ iD - minResizeDuration →
        j.startTime = iS + dX ∧ j.duration = iD - dX ∧ j.startTime + j.duration = iS + iD)) ∧
    (∃ j, (resizeItems itemId ResizeSide.end iS iD dX items)[n]? = Option.some j ∧
      minResizeDuration ≤ j.duration ∧ j.startTime = i.startTime) ∧
    resizeItems "r1" ResizeSide.start 2 3 1 [resizeDemoItem] =
      [{ resizeDemoItem with startTime := 3, duration := 2 }] := by
  refine ⟨?_, ?_, ?_⟩
  · simp only [resizeItems, List.getElem?_map, hn, Option.map_some', if_pos hid]
    refine ⟨_, rfl, le_max_left _ _, le_max_left _ _, ?_⟩
    intro h1 h2
    have hs : max 0 (iS + dX) = iS + dX := max_eq_right h1
    have hd : max minResizeDuration (iD - (max 0 (iS + dX) - iS)) = iD - dX := by
      rw [hs]
      have he : iD - (iS + dX - iS) = iD - dX := by ring
      rw [he]
      exact max_eq_right (by linarith)
    have hd2 : max minResizeDuration (iD - (iS + dX - iS)) = iD - dX := by
      have he : iD - (iS + dX - iS) = iD - dX := by ring
      rw [he]
      exact max_eq_right (by linarith)
    refine ⟨by simp [hs], by simp [hd], ?_⟩
    simp only [hs]
    rw [hd2]
    ring
  · simp only [resizeItems, List.getElem?_map, hn, Option.map_some', if_pos hid]
    exact ⟨_, rfl, le_max_left _ _, rfl⟩
  · simp only [resizeItems, List.map_cons, List.map_nil,
      if_pos (show resizeDemoItem.id = "r1" from rfl)]
    have h1 : max (0 : ℚ) (2 + 1) = 3 := by rw [max_eq_right] <;> norm_num
    have h2 : max minResizeDuration ((3 : ℚ) - (3 - 2)) = 2 := by
      rw [max_eq_right] <;> norm_num [minResizeDuration]
    simp only [h1, h2]

/-- Witness for C8 at the concrete scenario of the spec. -/
theorem c8_resize_contract_witness :
    resizeItems "r1" ResizeSide.start 2 3 1 [resizeDemoItem] =
      [{ resizeDemoItem with startTime := 3, duration := 2 }] :=
  (c8_resize_contract "r1" 2 3 1 [resizeDemoItem] 0 resizeDemoItem rfl rfl).2.2

/-! ### C9: undo/redo round trip -/

/-- C9: a mutating edit followed by Undo restores the pre-operation model,
and Redo after that Undo restores the post-operation model, for any bounded
history with room for at least two snapshots. -/
theorem c9_undo_redo_roundtrip (bound : ℕ) (h : History) (op : EditOp) (hb : 2 ≤ bound) :
    (History.undo (History.doEdit bound h op)).live = h.live ∧
      (History.redo (History.undo (History.doEdit bound h op))).live = applyOp h.live op := by
  obtain ⟨k, rfl⟩ : ∃ k, bound = k + 2 := ⟨bound - 2, by omega⟩
  have htake : (h.live :: h.past).take (k + 2 - 1) = h.live :: h.past.take k := by
    have hk : k + 2 - 1 = k + 1 := by omega
    rw [hk, List.take_succ_cons]
  constructor
  · rw [History.doEdit, htake, History.undo]
  · rw [History.doEdit, htake, History.undo, History.redo]

/-- An empty history over the initial project. -/
def initialHistory : History :=
  { past := [], live := initialProject, future := [] }

/-- Witness for C9 with a bound of 50 and a delete operation. -/
theorem c9_undo_redo_roundtrip_witness :
    (History.undo (History.doEdit 50 initialHistory (EditOp.deleteItem "x"))).live =
        initialHistory.live ∧
      (History.redo (History.undo (History.doEdit 50 initialHistory (EditOp.deleteItem "x")))).live =
        applyOp initialHistory.live (EditOp.deleteItem "x") :=
  c9_undo_redo_roundtrip 50 initialHistory (EditOp.deleteItem "x") (by norm_num)

/-! ### C2: duration/startTime invariant -/

lemma assetItemDuration_pos (a : Asset) (ha : AssetDurOk a) : 0 < assetItemDuration a := by
  have hfb : 0 < assetFallbackDuration a := by
    rw [assetFallbackDuration]
    split <;> norm_num
  cases hd : a.duration with
  | none => simp only [assetItemDuration, hd]; exact hfb
  | some d =>
    simp only [assetItemDuration, hd]
    by_cases h0 : d = 0
    · rw [if_pos h0]
      exact hfb
    · rw [if_neg h0]
      exact lt_of_le_of_ne (ha d hd) (Ne.symm h0)

lemma inv_timeline_map (p : ProjectState) (f : TimelineTrack → TimelineTrack)
    (hInv : Inv p)
    (h : ∀ tr ∈ p.timeline, (∀ j ∈ tr.items, ItemOk j) → ∀ i ∈ (f tr).items, ItemOk i) :
    Inv { p with timeline := p.timeline.map f } := by
  intro tr' htr' i hi
  obtain ⟨tr, htr, rfl⟩ := List.mem_map.mp htr'
  exact h tr htr (hInv tr htr) i hi

lemma inv_addToTimeline (p : ProjectState) (asset : Asset) (tid : Option String)
    (s : ℚ) (nid : String) (hInv : Inv p) (hs : 0 ≤ s) (ha : AssetDurOk asset) :
    Inv (addToTimeline p asset tid s nid) := by
  refine inv_timeline_map p _ hInv ?_
  intro tr htr hold i hi
  by_cases hid :
      tr.id = tid.getD ((((p.timeline.find? (addTrackPred asset)).map (fun t => t.id))).getD "v1")
  · rw [if_pos hid] at hi
    rcases List.mem_append.mp hi with h1 | h1
    · exact hold i h1
    · rcases List.mem_singleton.mp h1 with rfl
      exact ⟨assetItemDuration_pos asset ha, hs⟩
  · rw [if_neg hid] at hi
    exact hold i hi

lemma itemOk_resizeItems (itemId : String) (side : ResizeSide) (iS iD dX : ℚ)
    (items : List TimelineItem) (hold : ∀ j ∈ items, ItemOk j) :
    ∀ i ∈ resizeItems itemId side iS iD dX items, ItemOk i := by
  intro i hi
  obtain ⟨j, hj, rfl⟩ := List.mem_map.mp hi
  by_cases hid : j.id = itemId
  · rw [if_pos hid]
    cases side with
    | start =>
      exact ⟨lt_of_lt_of_le (by norm_num [minResizeDuration]) (le_max_left _ _),
        le_max_left _ _⟩
    | «end» =>
      exact ⟨lt_of_lt_of_le (by norm_num [minResizeDuration]) (le_max_left _ _),
        (hold j hj).2⟩
  · rw [if_neg hid]
    exact hold j hj

lemma itemOk_trySplitItems (itemId : String) (t : ℚ) (newId : String)
    (items l : List TimelineItem) (hsp : trySplitItems itemId t newId items = Option.some l)
    (hold : ∀ j ∈ items, ItemOk j) : ∀ i ∈ l, ItemOk i := by
  induction items generalizing l with
  | nil => cases hsp
  | cons j rest ih =>
    by_cases hid : j.id = itemId
    · rw [trySplitItems, if_pos hid] at hsp
      by_cases hg : splitGuard j t = true
      · rw [if_pos hg] at hsp
        rcases Option.some.injEq _ _ ▸ hsp with rfl
        have hjok := hold j (List.mem_cons_self j rest)
        have hg2 : j.startTime < t ∧ t < j.startTime + j.duration := by
          simpa [splitGuard] using hg
        intro i hi
        rcases List.mem_cons.mp hi with rfl | hi2
        · exact ⟨by simp [splitFirstPart]; linarith [hg2.1], by simp [splitFirstPart]; exact hjok.2⟩
        rcases List.mem_cons.mp hi2 with rfl | hi3
        · refine ⟨by simp [splitSecondPart]; linarith [hg2.2], ?_⟩
          simp [splitSecondPart]
          linarith [hjok.2, hg2.1]
        · exact hold i (List.mem_cons_of_mem j hi3)
      · rw [if_neg hg] at hsp
        cases hsp
    · rw [trySplitItems, if_neg hid] at hsp
      cases hrec : trySplitItems itemId t newId rest with
      | none => rw [hrec] at hsp; cases hsp
      | some l2 =>
        rw [hrec, Option.map_some'] at hsp
        rcases Option.some.injEq _ _ ▸ hsp with rfl
        intro i hi
        rcases List.mem_cons.mp hi with rfl | hi2
        · exact hold i (List.mem_cons_self i rest)
        · exact ih l2 hrec (fun x hx => hold x (List.mem_cons_of_mem j hx)) i hi2

lemma inv_splitTracks (itemId : String) (t : ℚ) (newId : String)
    (tl : List TimelineTrack) (hold : ∀ tr ∈ tl, ∀ i ∈ tr.items, ItemOk i) :
    ∀ tr ∈ splitTracks itemId t newId tl, ∀ i ∈ tr.items, ItemOk i := by
  induction tl with
  | nil => intro tr htr; cases htr
  | cons tr0 rest ih =>
    intro tr htr
    rw [splitTracks] at htr
    cases hsp : trySplitItems itemId t newId tr0.items with
    | some l =>
      rw [hsp] at htr
      rcases List.mem_cons.mp htr with rfl | htr2
      · exact itemOk_trySplitItems itemId t newId tr0.items l hsp
          (hold tr0 (List.mem_cons_self tr0 rest))
      · exact hold tr (List.mem_cons_of_mem tr0 htr2)
    | none =>
      rw [hsp] at htr
      rcases List.mem_cons.mp htr with rfl | htr2
      · exact hold tr (List.mem_cons_self tr rest)
      · exact ih (fun x hx => hold x (List.mem_cons_of_mem tr0 hx)) tr htr2

lemma inv_handleTrackDropMove (p : ProjectState) (itemId sourceTrackId targetTrackId : String)
    (rawStart : ℚ) (hInv : Inv p) :
    Inv (handleTrackDropMove p itemId sourceTrackId targetTrackId rawStart) := by
  simp only [handleTrackDropMove]
  split
  · exact hInv
  rename_i sourceTrack hsrc
  split
  · exact hInv
  rename_i item hit
  split
  · exact hInv
  rename_i targetTrack htgt
  split
  · exact hInv
  · have hitemok : ItemOk item :=
      hInv sourceTrack (List.mem_of_find?_eq_some hsrc) item (List.mem_of_find?_eq_some hit)
    refine inv_timeline_map p _ hInv ?_
    intro tr htr holdtr i hi
    by_cases h1 : tr.id = sourceTrackId ∧ tr.id = targetTrackId
    · rw [if_pos h1] at hi
      obtain ⟨j, hj, rfl⟩ := List.mem_map.mp hi
      by_cases hjid : j.id = item.id
      · rw [if_pos hjid]
        exact ⟨(holdtr j hj).1, le_max_left _ _⟩
      · rw [if_neg hjid]
        exact holdtr j hj
    · rw [if_neg h1] at hi
      by_cases h2 : tr.id = sourceTrackId
      · rw [if_pos h2] at hi
        exact holdtr i (List.mem_of_mem_filter hi)
      · rw [if_neg h2] at hi
        by_cases h3 : tr.id = targetTrackId
        · rw [if_pos h3] at hi
          rcases List.mem_append.mp hi with h4 | h4
          · exact holdtr i h4
          · rcases List.mem_singleton.mp h4 with rfl
            exact ⟨hitemok.1, le_max_left _ _⟩
        · rw [if_neg h3] at hi
          exact holdtr i hi

lemma inv_applyOp (p : ProjectState) (op : EditOp)
    (hInv : Inv p) (hA : AssetsOk p) (hop : OpArgsOk op) : Inv (applyOp p op) := by
  cases op with
  | add asset tid s nid => exact inv_addToTimeline p asset tid s nid hInv hop.1 hop.2
  | resize itemId side iS iD dX =>
    exact inv_timeline_map p _ hInv
      (fun tr _ hold => itemOk_resizeItems itemId side iS iD dX tr.items hold)
  | split itemId atTime newId =>
    exact fun tr htr => inv_splitTracks itemId atTime newId p.timeline hInv tr htr
  | dropMove itemId src tgt raw => exact inv_handleTrackDropMove p itemId src tgt raw hInv
  | dropLibrary assetId targetTrackId raw nid =>
    simp only [applyOp, handleTrackDropLibrary]
    split
    · exact hInv
    · rename_i asset hfa
      exact inv_addToTimeline p asset _ _ nid hInv (le_max_left _ _)
        (hA asset (List.mem_of_find?_eq_some hfa))
  | deleteItem itemId =>
    refine inv_timeline_map p _ hInv ?_
    intro tr _ hold i hi
    exact hold i (List.mem_of_mem_filter hi)

lemma assets_applyOp (p : ProjectState) (op : EditOp) : (applyOp p op).assets = p.assets := by
  cases op with
  | add asset tid s nid => rfl
  | resize itemId side iS iD dX => rfl
  | split itemId atTime newId => rfl
  | dropMove itemId src tgt raw =>
    simp only [applyOp, handleTrackDropMove]
    split
    · rfl
    split
    · rfl
    split
    · rfl
    split
    · rfl
    · rfl
  | dropLibrary assetId targetTrackId raw nid =>
    simp only [applyOp, handleTrackDropLibrary]
    split
    · rfl
    · rfl
  | deleteItem itemId => rfl

/-- C2: starting from a model satisfying the invariant, with assets whose
stored durations are nonnegative, any sequence of edit operations (with
`addToTimeline` invoked on a nonnegative start position, as every caller
does) preserves `duration > 0` and `startTime ≥ 0` for every item. -/
theorem c2_edit_invariant (p : ProjectState) (ops : List EditOp)
    (hInv : Inv p) (hA : AssetsOk p) (hops : ∀ op ∈ ops, OpArgsOk op) :
    Inv (applyOps p ops) := by
  induction ops generalizing p with
  | nil => exact hInv
  | cons op rest ih =>
    rw [applyOps, List.foldl_cons]
    refine ih (applyOp p op)
      (inv_applyOp p op hInv hA (hops op (List.mem_cons_self op rest))) ?_
      (fun o ho => hops o (List.mem_cons_of_mem op ho))
    intro a ha
    rw [assets_applyOp p op] at ha
    exact hA a ha

/-- A concrete video asset used by the C2 witness. -/
def demoAsset : Asset :=
  { id := "as1", type := MediaType.video, url := "u", name := "clip",
    duration := Option.some 7 }

/-- A short sequence of concrete edits used as the C2 witness. -/
def demoOps : List EditOp :=
  [EditOp.add demoAsset Option.none 0 "it1",
   EditOp.split "it1" 3 "it2",
   EditOp.resize "it2" ResizeSide.start 3 4 (1 / 2),
   EditOp.dropMove "it1" "v1" "v2" (-1),
   EditOp.deleteItem "it2"]

/-- Witness for C2: the invariant holds after running `demoOps` on the
initial project. -/
theorem c2_edit_invariant_witness : Inv (applyOps initialProject demoOps) :=
  c2_edit_invariant initialProject demoOps
    (by intro tr htr i hi; simp [initialProject] at htr; rcases htr with h | h | h | h <;>
      (subst h; simp at hi))
    (by intro a ha; simp [initialProject] at ha)
    (by
      intro op hop
      simp only [demoOps, List.mem_cons] at hop
      rcases hop with rfl | rfl | rfl | rfl | rfl | h
      · refine ⟨le_refl 0, ?_⟩
        intro d hd
        simp [demoAsset] at hd
        subst hd
        norm_num
      · trivial
      · trivial
      · trivial
      · trivial
      · cases h)

/-! ### C5: compositor selection and layer order -/

/-- C5: the compositor's `activeItems` selects exactly the items of visual
(video/text) tracks whose half-open range contains the playhead, lists them
in ascending layer order, and in particular places any active layer-1 item
after (above) any active layer-0 item, regardless of insertion order. -/
theorem c5_compositor_selection (timeline : List TimelineTrack) (t : ℚ) :
    (∀ pr : TimelineItem × TimelineTrack,
      pr ∈ activeItems timeline t ↔
        pr.2 ∈ timeline ∧ isVisualTrack pr.2 = true ∧ pr.1 ∈ pr.2.items ∧
          itemActiveAt pr.1 t = true) ∧
    (activeItems timeline t).Pairwise (fun a b => a.1.layer ≤ b.1.layer) ∧
    (∀ (n m : ℕ) (x y : TimelineItem × TimelineTrack),
      (activeItems timeline t)[n]? = Option.some x →
      (activeItems timeline t)[m]? = Option.some y →
      x.1.layer = 0 → y.1.layer = 1 → n < m) := by
  have hpair : (activeItems timeline t).Pairwise (fun a b => a.1.layer ≤ b.1.layer) :=
    pairwise_sortByLayer _ _
  refine ⟨?_, hpair, ?_⟩
  · intro pr
    rw [activeItems, mem_sortByLayer, List.mem_filter, List.mem_flatMap]
    constructor
    · rintro ⟨⟨track, htrack, hpr⟩, hact⟩
      obtain ⟨item, hitem, rfl⟩ := List.mem_map.mp hpr
      rcases List.mem_filter.mp htrack with ⟨h1, h2⟩
      exact ⟨h1, h2, hitem, hact⟩
    · rintro ⟨h1, h2, h3, h4⟩
      exact ⟨⟨pr.2, List.mem_filter.mpr ⟨h1, h2⟩, List.mem_map.mpr ⟨pr.1, h3, rfl⟩⟩, h4⟩
  · intro n m x y hx hy hx0 hy1
    obtain ⟨hn, hxe⟩ := List.getElem?_eq_some.mp hx
    obtain ⟨hm, hye⟩ := List.getElem?_eq_some.mp hy
    by_contra hnm
    push_neg at hnm
    rcases lt_or_eq_of_le hnm with hlt | heq
    · have hle := List.pairwise_iff_getElem.mp hpair m n hm hn hlt
      rw [hxe, hye, hx0, hy1] at hle
      norm_num at hle
    · subst heq
      rw [hx] at hy
      injection hy with hxy
      rw [hxy, hy1] at hx0
      norm_num at hx0

/-- Layer-0 demo item, inserted second. -/
def layerItemA : TimelineItem :=
  { id := "A", assetId := "aa", startTime := 0, duration := 5, layer := 0 }

/-- Layer-1 demo item, inserted first. -/
def layerItemB : TimelineItem :=
  { id := "B", assetId := "ab", startTime := 0, duration := 5, layer := 1 }

/-- A video track holding the layer-1 item before the layer-0 item. -/
def layerDemoTrack : TimelineTrack :=
  { id := "v1", name := "Video 1", type := TrackType.video, volume := 1,
    items := [layerItemB, layerItemA] }

/-- Witness for C5: on a track where the layer-1 item was inserted first,
the sorted active list still puts the layer-0 item at index 0 and the
layer-1 item at index 1. -/
theorem c5_compositor_selection_witness : (0 : ℕ) < 1 :=
  (c5_compositor_selection [layerDemoTrack] 1).2.2 0 1
    (layerItemA, layerDemoTrack) (layerItemB, layerDemoTrack)
    (by
      show (activeItems [layerDemoTrack] 1)[0]? = _
      norm_num [activeItems, layerDemoTrack, layerItemA, layerItemB, sortByLayer,
        insertByLayer, itemActiveAt, isVisualTrack])
    (by
      show (activeItems [layerDemoTrack] 1)[1]? = _
      norm_num [activeItems, layerDemoTrack, layerItemA, layerItemB, sortByLayer,
        insertByLayer, itemActiveAt, isVisualTrack])
    rfl rfl

/-! ### C6/C10: split -/

lemma trySplitItems_eq_none (itemId : String) (t : ℚ) (newId : String)
    (items : List TimelineItem)
    (h : ∀ i ∈ items, i.id = itemId → splitGuard i t = false) :
    trySplitItems itemId t newId items = Option.none := by
  induction items with
  | nil => rfl
  | cons i rest ih =>
    by_cases hid : i.id = itemId
    · rw [trySplitItems, if_pos hid, h i (List.mem_cons_self i rest) hid]
      simp
    · rw [trySplitItems, if_neg hid,
        ih (fun j hj => h j (List.mem_cons_of_mem i hj)), Option.map_none']

lemma splitTracks_eq_self (itemId : String) (t : ℚ) (newId : String)
    (tl : List TimelineTrack)
    (h : ∀ tr ∈ tl, ∀ i ∈ tr.items, i.id = itemId → splitGuard i t = false) :
    splitTracks itemId t newId tl = tl := by
  induction tl with
  | nil => rfl
  | cons tr rest ih =>
    rw [splitTracks,
      trySplitItems_eq_none itemId t newId tr.items (h tr (List.mem_cons_self tr rest)),
      ih (fun tr2 h2 => h tr2 (List.mem_cons_of_mem tr h2))]

lemma trySplitItems_success (itemId : String) (t : ℚ) (newId : String)
    (ipre : List TimelineItem) (item : TimelineItem) (ipost : List TimelineItem)
    (hipre : ∀ j ∈ ipre, j.id ≠ itemId) (hid : item.id = itemId)
    (hg : splitGuard item t = true) :
    trySplitItems itemId t newId (ipre ++ item :: ipost) =
      Option.some (ipre ++ splitFirstPart item t :: splitSecondPart item t newId :: ipost) := by
  induction ipre with
  | nil =>
    rw [List.nil_append, trySplitItems, if_pos hid, if_pos hg, List.nil_append]
  | cons j rest ih =>
    rw [List.cons_append, trySplitItems,
      if_neg (hipre j (List.mem_cons_self j rest)),
      ih (fun x hx => hipre x (List.mem_cons_of_mem j hx)), Option.map_some',
      List.cons_append]

lemma splitTracks_success (itemId : String) (t : ℚ) (newId : String)
    (pre : List TimelineTrack) (tr : TimelineTrack) (post : List TimelineTrack)
    (newItems : List TimelineItem)
    (hpre : ∀ tr2 ∈ pre, ∀ i ∈ tr2.items, i.id ≠ itemId)
    (htr : trySplitItems itemId t newId tr.items = Option.some newItems) :
    splitTracks itemId t newId (pre ++ tr :: post) =
      pre ++ { tr with items := newItems } :: post := by
  induction pre with
  | nil =>
    rw [List.nil_append, splitTracks, htr, List.nil_append]
  | cons q rest ih =>
    have hq : trySplitItems itemId t newId q.items = Option.none := by
      refine trySplitItems_eq_none itemId t newId q.items ?_
      intro i hi hid
      exact absurd hid (hpre q (List.mem_cons_self q rest) i hi)
    rw [List.cons_append, splitTracks, hq,
      ih (fun tr2 h2 => hpre tr2 (List.mem_cons_of_mem q h2)), List.cons_append]

/-- C6: Split at a time strictly inside the item's range replaces the item
(on the first track holding it) with two parts sharing all attributes
except start/duration — the first covering `[startTime, t)`, the second
covering `[t, startTime+duration)`, so the two parts merge back to exactly
the original range; Split at a time outside every matching item's open
range (endpoints included) leaves the model unchanged. -/
theorem c6_split_contract (p : ProjectState) (itemId : String) (t : ℚ) (newId : String) :
    ((∀ tr ∈ p.timeline, ∀ i ∈ tr.items, i.id = itemId →
        ¬(i.startTime < t ∧ t < i.startTime + i.duration)) →
      handleSplit p itemId t newId = p) ∧
    (∀ pre tr post ipre item ipost,
      p.timeline = pre ++ tr :: post →
      (∀ tr2 ∈ pre, ∀ i ∈ tr2.items, i.id ≠ itemId) →
      tr.items = ipre ++ item :: ipost →
      (∀ j ∈ ipre, j.id ≠ itemId) →
      item.id = itemId →
      item.startTime < t → t < item.startTime + item.duration →
      handleSplit p itemId t newId =
        { p with timeline := pre ++
            { tr with items :=
                ipre ++ splitFirstPart item t :: splitSecondPart item t newId :: ipost } :: post } ∧
      (splitFirstPart item t).startTime = item.startTime ∧
      (splitFirstPart item t).startTime + (splitFirstPart item t).duration = t ∧
      (splitSecondPart item t newId).startTime = t ∧
      (splitSecondPart item t newId).startTime + (splitSecondPart item t newId).duration =
        item.startTime + item.duration ∧
      (splitFirstPart item t).duration + (splitSecondPart item t newId).duration = item.duration ∧
      (splitFirstPart item t).assetId = item.assetId ∧
      (splitSecondPart item t newId).assetId = item.assetId ∧
      (splitFirstPart item t).layer = item.layer ∧
      (splitSecondPart item t newId).layer = item.layer ∧
      (splitFirstPart item t).opacity = item.opacity ∧
      (splitSecondPart item t newId).opacity = item.opacity ∧
      (splitFirstPart item t).volume = item.volume ∧
      (splitSecondPart item t newId).volume = item.volume ∧
      (splitFirstPart item t).filters = item.filters ∧
      (splitSecondPart item t newId).filters = item.filters ∧
      (splitFirstPart item t).transitionIn = item.transitionIn ∧
      (splitSecondPart item t newId).transitionOut = item.transitionOut) := by
  constructor
  · intro h
    have harg : ∀ tr ∈ p.timeline, ∀ i ∈ tr.items, i.id = itemId → splitGuard i t = false := by
      intro tr htr i hi hid
      have hni := h tr htr i hi hid
      simp only [splitGuard, decide_eq_false_iff_not]
      exact hni
    rw [handleSplit, splitTracks_eq_self itemId t newId p.timeline harg]
  · intro pre tr post ipre item ipost hp hpre hitems hipre hid hg1 hg2
    have hguard : splitGuard item t = true := by
      simp only [splitGuard]
      rw [decide_eq_true_eq]
      exact ⟨hg1, hg2⟩
    refine ⟨?_, rfl, ?_, rfl, ?_, ?_, rfl, rfl, rfl, rfl, rfl, rfl, rfl, rfl, rfl, rfl, rfl, rfl⟩
    · rw [handleSplit, hp,
        splitTracks_success itemId t newId pre tr post _ hpre
          (by rw [hitems]; exact trySplitItems_success itemId t newId ipre item ipost hipre hid hguard)]
    · show item.startTime + (t - item.startTime) = t
      ring
    · show t + (item.duration - (t - item.startTime)) = item.startTime + item.duration
      ring
    · show (t - item.startTime) + (item.duration - (t - item.startTime)) = item.duration
      ring

/-- The item split by the C6/C10 witnesses: `[1, 5)` on track v1. -/
def splitDemoItem : TimelineItem :=
  { id := "s1", assetId := "sa", startTime := 1, duration := 4, layer := 0 }

/-- The track holding `splitDemoItem`. -/
def splitDemoTrack : TimelineTrack :=
  { id := "v1", name := "Video 1", type := TrackType.video, volume := 1,
    items := [splitDemoItem] }

/-- The project the C6/C10 witnesses split at t = 3. -/
def splitDemoProject : ProjectState :=
  { id := "p", title := "p", assets := [], timeline := [splitDemoTrack] }

/-- The track `splitDemoTrack` after the split at t = 3. -/
def splitResultTrack : TimelineTrack :=
  { splitDemoTrack with
    items := [splitFirstPart splitDemoItem 3, splitSecondPart splitDemoItem 3 "s2"] }

/-- Witness for C6: splitting the `[1, 5)` item at t = 3 yields the two
expected parts. -/
theorem c6_split_contract_witness :
    handleSplit splitDemoProject "s1" 3 "s2" =
      { splitDemoProject with timeline := [splitResultTrack] } :=
  (((c6_split_contract splitDemoProject "s1" 3 "s2").2
    [] splitDemoTrack [] [] splitDemoItem []
    (by simp [splitDemoProject]) (by simp) (by simp [splitDemoTrack]) (by simp)
    rfl (by norm_num [splitDemoItem]) (by norm_num [splitDemoItem]))).1

/-- C10: when Split succeeds, the first part keeps the original item's id,
the second part receives the supplied fresh id (distinct, per the
freshness hypothesis, from every existing item id), both parts reference
the original asset, and every other item — earlier and later items on the
same track and all items of other tracks — and the asset set are unchanged. -/
theorem c10_split_frame_effect (p : ProjectState) (itemId : String) (t : ℚ) (newId : String)
    (pre : List TimelineTrack) (tr : TimelineTrack) (post : List TimelineTrack)
    (ipre : List TimelineItem) (item : TimelineItem) (ipost : List TimelineItem)
    (hp : p.timeline = pre ++ tr :: post)
    (hpre : ∀ tr2 ∈ pre, ∀ i ∈ tr2.items, i.id ≠ itemId)
    (hitems : tr.items = ipre ++ item :: ipost)
    (hipre : ∀ j ∈ ipre, j.id ≠ itemId)
    (hid : item.id = itemId)
    (hg1 : item.startTime < t) (hg2 : t < item.startTime + item.duration)
    (hfresh : ∀ j ∈ allItems p, j.id ≠ newId) :
    (handleSplit p itemId t newId).timeline =
        pre ++ { tr with items :=
            ipre ++ splitFirstPart item t :: splitSecondPart item t newId :: ipost } :: post ∧
      (splitFirstPart item t).id = item.id ∧
      (splitSecondPart item t newId).id = newId ∧
      (splitFirstPart item t).assetId = item.assetId ∧
      (splitSecondPart item t newId).assetId = item.assetId ∧
      (∀ j ∈ ipre ++ ipost, j.id ≠ newId) ∧
      (∀ tr2 ∈ pre ++ post, ∀ j ∈ tr2.items, j.id ≠ newId) ∧
      (handleSplit p itemId t newId).assets = p.assets := by
  have hguard : splitGuard item t = true := by
    simp only [splitGuard]
    rw [decide_eq_true_eq]
    exact ⟨hg1, hg2⟩
  have hmemItems : ∀ j ∈ tr.items, j ∈ allItems p := by
    intro j hj
    rw [allItems, hp]
    exact List.mem_flatMap.mpr ⟨tr, by simp, hj⟩
  refine ⟨?_, rfl, rfl, rfl, rfl, ?_, ?_, rfl⟩
  · rw [handleSplit, hp,
      splitTracks_success itemId t newId pre tr post _ hpre
        (by rw [hitems]; exact trySplitItems_success itemId t newId ipre item ipost hipre hid hguard)]
  · intro j hj
    refine hfresh j (hmemItems j ?_)
    rw [hitems]
    rcases List.mem_append.mp hj with h | h
    · exact List.mem_append.mpr (Or.inl h)
    · exact List.mem_append.mpr (Or.inr (List.mem_cons_of_mem item h))
  · intro tr2 htr2 j hj
    refine hfresh j ?_
    rw [allItems, hp]
    refine List.mem_flatMap.mpr ⟨tr2, ?_, hj⟩
    rcases List.mem_append.mp htr2 with h | h
    · exact List.mem_append.mpr (Or.inl h)
    · exact List.mem_append.mpr (Or.inr (List.mem_cons_of_mem tr h))

/-- Witness for C10 at the concrete split of `splitDemoProject`. -/
theorem c10_split_frame_effect_witness :
    (handleSplit splitDemoProject "s1" 3 "s2").timeline = [splitResultTrack] :=
  (c10_split_frame_effect splitDemoProject "s1" 3 "s2"
    [] splitDemoTrack [] [] splitDemoItem []
    (by simp [splitDemoProject]) (by simp) (by simp [splitDemoTrack]) (by simp)
    rfl (by norm_num [splitDemoItem]) (by norm_num [splitDemoItem])
    (by
      intro j hj
      simp [allItems, splitDemoProject, splitDemoTrack] at hj
      subst hj
      simp [splitDemoItem])).1

/-! ### C7: track/asset kind compatibility -/

lemma trackCompat_iff (p : ProjectState) :
    trackCompat p = true ↔ ∀ tr ∈ p.timeline, ∀ i ∈ tr.items, itemCompat p tr.type i = true := by
  simp [trackCompat, List.all_eq_true]

lemma itemCompat_timeline_update (p : ProjectState) (tl : List TimelineTrack)
    (ty : TrackType) (i : TimelineItem) :
    itemCompat { p with timeline := tl } ty i = itemCompat p ty i := rfl

lemma itemCompat_of_lookup (p : ProjectState) (ty : TrackType) (i : TimelineItem) (a : Asset)
    (hl : lookupAsset p i.assetId = Option.some a)
    (hk : kindCompatible a.type ty = true) : itemCompat p ty i = true := by
  rw [itemCompat, hl]
  exact hk

lemma track_eq_of_nodup_ids (p : ProjectState)
    (hnd : (p.timeline.map (fun tr => tr.id)).Nodup)
    (tr tr2 : TimelineTrack) (h1 : tr ∈ p.timeline) (h2 : tr2 ∈ p.timeline)
    (hid : tr.id = tr2.id) : tr = tr2 :=
  List.inj_on_of_nodup_map hnd h1 h2 hid

/-- The audio asset dropped onto a video track in the C7 counterexample. -/
def dropAudioAsset : Asset :=
  { id := "au", type := MediaType.audio, url := "u", name := "song",
    duration := Option.some 3 }

/-- The single empty video track of the C7 counterexample project. -/
def dropDemoTrack : TimelineTrack :=
  { id := "v1", name := "Video 1", type := TrackType.video, volume := 1, items := [] }

/-- A project with one video track and one audio library asset. -/
def dropDemoProject : ProjectState :=
  { id := "p", title := "p", assets := [dropAudioAsset], timeline := [dropDemoTrack] }

/-- C7 counterexample: dropping the audio library asset onto the explicitly
chosen video track `v1` inserts it there with no kind check, so the
resulting model violates track/asset kind compatibility. -/
theorem c7_counterexample :
    trackCompat (handleTrackDropLibrary dropDemoProject "au" "v1" 0 "n1") = false := by
  norm_num [handleTrackDropLibrary, dropDemoProject, dropDemoTrack, dropAudioAsset,
    addToTimeline, trackCompat, itemCompat, lookupAsset, assetItemDuration,
    kindCompatible]

/-- C7 amended: kind compatibility is preserved by moving an item between
tracks (the code compares the two tracks' kinds) and by adding an asset
without an explicit target track (the default resolution picks a
kind-matching track), the latter provided the asset is not a text asset,
its id resolves to itself, and some kind-matching track exists; it is NOT
an invariant of all placement operations — dropping a library asset onto
an explicitly chosen track performs no kind check (see the
counterexample). -/
theorem c7_amended_compat :
    (∀ (p : ProjectState) (itemId src tgt : String) (raw : ℚ),
      (p.timeline.map (fun tr => tr.id)).Nodup →
      trackCompat p = true →
      trackCompat (handleTrackDropMove p itemId src tgt raw) = true) ∧
    (∀ (p : ProjectState) (asset : Asset) (s : ℚ) (nid : String),
      (p.timeline.map (fun tr => tr.id)).Nodup →
      trackCompat p = true →
      asset.type ≠ MediaType.text →
      lookupAsset p asset.id = Option.some asset →
      (∃ tr0 ∈ p.timeline, addTrackPred asset tr0 = true) →
      trackCompat (addToTimeline p asset Option.none s nid) = true) := by
  constructor
  · intro p itemId src tgt raw hnd hc
    rw [trackCompat_iff] at hc
    simp only [handleTrackDropMove]
    split
    · rw [trackCompat_iff]; exact hc
    rename_i sourceTrack hsrc
    split
    · rw [trackCompat_iff]; exact hc
    rename_i item hit
    split
    · rw [trackCompat_iff]; exact hc
    rename_i targetTrack htgt
    split
    · rw [trackCompat_iff]; exact hc
    · rename_i hty
      rw [not_not] at hty
      have hsrcmem := List.mem_of_find?_eq_some hsrc
      have htgtmem := List.mem_of_find?_eq_some htgt
      have htgtid0 := List.find?_some htgt
      have htgtid : targetTrack.id = tgt := of_decide_eq_true htgtid0
      have hitemmem := List.mem_of_find?_eq_some hit
      have hitemcompat : itemCompat p sourceTrack.type item = true :=
        hc sourceTrack hsrcmem item hitemmem
      rw [trackCompat_iff]
      intro tr2 htr2 i hi
      obtain ⟨tr, htr, rfl⟩ := List.mem_map.mp htr2
      rw [itemCompat_timeline_update]
      by_cases h1 : tr.id = src ∧ tr.id = tgt
      · rw [if_pos h1] at hi ⊢
        obtain ⟨j, hj, rfl⟩ := List.mem_map.mp hi
        by_cases hjid : j.id = item.id
        · rw [if_pos hjid]
          exact hc tr htr j hj
        · rw [if_neg hjid]
          exact hc tr htr j hj
      · rw [if_neg h1] at hi ⊢
        by_cases h2 : tr.id = src
        · rw [if_pos h2] at hi ⊢
          exact hc tr htr i (List.mem_of_mem_filter hi)
        · rw [if_neg h2] at hi ⊢
          by_cases h3 : tr.id = tgt
          · rw [if_pos h3] at hi ⊢
            rcases List.mem_append.mp hi with h4 | h4
            · exact hc tr htr i h4
            · rcases List.mem_singleton.mp h4 with rfl
              have htreq : tr = targetTrack :=
                track_eq_of_nodup_ids p hnd tr targetTrack htr htgtmem (h3.trans htgtid.symm)
              have hgoal : itemCompat p tr.type item = true := by
                rw [htreq, ← hty]
                exact hitemcompat
              exact hgoal
          · rw [if_neg h3] at hi ⊢
            exact hc tr htr i hi
  · intro p asset s nid hnd hc hnt hlook hex
    rw [trackCompat_iff] at hc
    obtain ⟨tr0, htr0, hpred⟩ := hex
    have hfind : ∃ trf, p.timeline.find? (addTrackPred asset) = Option.some trf := by
      rw [← Option.isSome_iff_exists, List.find?_isSome]
      exact ⟨tr0, htr0, hpred⟩
    obtain ⟨trf, hfindeq⟩ := hfind
    have htrfmem := List.mem_of_find?_eq_some hfindeq
    have htrfpred : addTrackPred asset trf = true := List.find?_some hfindeq
    rw [trackCompat_iff]
    intro tr2 htr2 i hi
    simp only [addToTimeline, Option.getD_none, hfindeq, Option.map_some',
      Option.getD_some] at htr2
    obtain ⟨tr, htr, rfl⟩ := List.mem_map.mp htr2
    rw [itemCompat_timeline_update]
    by_cases hid : tr.id = trf.id
    · rw [if_pos hid] at hi ⊢
      rcases List.mem_append.mp hi with h4 | h4
      · exact hc tr htr i h4
      · rcases List.mem_singleton.mp h4 with rfl
        have htreq : tr = trf := track_eq_of_nodup_ids p hnd tr trf htr htrfmem hid
        have hkind : kindCompatible asset.type tr.type = true := by
          rw [htreq]
          rcases of_decide_eq_true htrfpred with ⟨ha, htty⟩ | ⟨ha, htty⟩
          · rw [ha, htty]
            rfl
          · rw [htty]
            cases hat : asset.type with
            | video => rfl
            | image => rfl
            | audio => exact absurd hat ha
            | text => exact absurd hat hnt
        exact itemCompat_of_lookup p _ _ asset hlook hkind
    · rw [if_neg hid] at hi ⊢
      exact hc tr htr i hi

/-- The video track of the C7 witness. -/
def c7WitnessTrack : TimelineTrack :=
  { id := "v1", name := "Video 1", type := TrackType.video, volume := 1, items := [] }

/-- The video asset added by the C7 witness. -/
def c7WitnessAsset : Asset :=
  { id := "va", type := MediaType.video, url := "u", name := "clip",
    duration := Option.some 6 }

/-- The project of the C7 witness. -/
def c7WitnessProject : ProjectState :=
  { id := "p", title := "p", assets := [c7WitnessAsset], timeline := [c7WitnessTrack] }

/-- Witness for C7 amended: adding a video asset with default track
resolution preserves compatibility on a concrete project. -/
theorem c7_amended_compat_witness :
    trackCompat (addToTimeline c7WitnessProject c7WitnessAsset Option.none 0 "n1") = true :=
  c7_amended_compat.2 c7WitnessProject c7WitnessAsset 0 "n1"
    (by simp [c7WitnessProject, c7WitnessTrack])
    (by simp [trackCompat, c7WitnessProject, c7WitnessTrack])
    (by simp [c7WitnessAsset])
    (by simp [lookupAsset, c7WitnessProject, c7WitnessAsset])
    ⟨c7WitnessTrack, by simp [c7WitnessProject],
      by simp [addTrackPred, c7WitnessAsset, c7WitnessTrack]⟩

/-! ### C1: export graph vs live preview -/

lemma flatMap_filter {α β : Type} (q : α → Bool) (f : α → List β) (l : List α) :
    (l.filter q).flatMap f = l.flatMap (fun x => if q x then f x else []) := by
  induction l with
  | nil => rfl
  | cons a as ih =>
    by_cases h : q a = true
    · simp only [List.filter_cons, h, if_true, List.flatMap_cons, ih]
    · simp only [List.filter_cons, h, List.flatMap_cons, ih, Bool.false_eq_true, ite_false,
        List.nil_append]

end Studio
